import Mathlib

/-!
Shallow embedding of the selection, toggle-list and ordering logic of
`nexus3ctl.py` (barbu-it/nexus3ctl), together with a model of its API
client traffic.  Items (Python dicts) are modelled as association lists
with string values for the fields the selection logic touches; role
items, whose `roles` and `privileges` fields are lists, get their own
association-list type with list values.  Fallible Python code (raised
exceptions) is modelled with `Except String`.
-/

/-- A configuration item: a Python dict with string-valued fields.
`get` is Python `dict.get`: `none` when the field is absent. -/
abbrev Item := List (String × String)

/-- Python `item.get(key)`: first binding of `key`, `none` if absent. -/
def Item.get (it : Item) (k : String) : Option String :=
  (List.find? (fun p => p.1 == k) it).map (fun p => p.2)

/-- Python `config[k] = v` on a dict: replace the value when the key is
present (keeping its position), append the binding otherwise. -/
def Item.set (it : Item) (k v : String) : Item :=
  if it.any (fun p => p.1 == k) then it.map (fun p => if p.1 == k then (k, v) else p)
  else it ++ [(k, v)]

/-- Python `del config[k]` (tolerant version: drops the key if present). -/
def Item.eraseKey (it : Item) (k : String) : Item :=
  it.filter (fun p => p.1 != k)

/-- Python `needle in hay` on strings: substring containment. -/
def strContains (hay needle : String) : Bool :=
  decide (needle.toList <:+: hay.toList)

/-- Python `s.startswith(p)`. -/
def strStartsWith (s p : String) : Bool :=
  p.toList.isPrefixOf s.toList

/-- Python `s.endswith(p)`. -/
def strEndsWith (s p : String) : Bool :=
  p.toList.isSuffixOf s.toList

/-- `LimitSelect.list()`: the values of the `LimitSelect` str-enum, in
declaration order. -/
def limitSelectList : List String :=
  ["exact", "contains", "startswith", "endswith", "regex"]

/-- `select = select or LimitSelect.EXACT` in `limit_reduce`: `None` and
the empty string (the falsy strings) default to `exact`.  Since
`LimitSelect` is a str-enum, a strategy is just its string value. -/
def limit_select_norm (select : Option String) : String :=
  match select with
  | none => "exact"
  | some s => if s = "" then "exact" else s

/-- A Python list comprehension whose predicate may raise: elements are
tested left to right and the first exception aborts the whole
comprehension. -/
def exceptFilter (p : α → Except String Bool) : List α → Except String (List α)
  | [] => Except.ok []
  | x :: xs =>
    match p x with
    | Except.error e => Except.error e
    | Except.ok b =>
      match exceptFilter p xs with
      | Except.error e => Except.error e
      | Except.ok rest => Except.ok (if b then x :: rest else rest)

/-- The per-strategy `matched = [item for item in config if ...]`
dispatch of `limit_reduce` (lines 160-174).  `rfn` models `re.match`
restricted to string arguments (pattern, value); on a missing field the
Python code applies the match operation to `None`, which raises
(`TypeError` for `in` and `re.match`, `AttributeError` for
`startswith`/`endswith`) -- only the `exact` branch compares `None`
without raising.  The final branch is the unsupported-strategy error;
its Python message quotes the mode name, the quote characters are
elided here. -/
def limit_matched (rfn : String → String → Bool) (config : List Item) (key : String)
    (sel limit : String) : Except String (List Item) :=
  if sel = "exact" then
    Except.ok (config.filter (fun item => item.get key == some limit))
  else if sel = "contains" then
    exceptFilter (fun item =>
      match item.get key with
      | none => Except.error "TypeError: argument of type NoneType is not iterable"
      | some v => Except.ok (strContains v limit)) config
  else if sel = "startswith" then
    exceptFilter (fun item =>
      match item.get key with
      | none => Except.error "AttributeError: NoneType object has no startswith"
      | some v => Except.ok (strStartsWith v limit)) config
  else if sel = "endswith" then
    exceptFilter (fun item =>
      match item.get key with
      | none => Except.error "AttributeError: NoneType object has no endswith"
      | some v => Except.ok (strEndsWith v limit)) config
  else if sel = "regex" then
    exceptFilter (fun item =>
      match item.get key with
      | none => Except.error "TypeError: expected string or bytes-like object"
      | some v => Except.ok (rfn limit v)) config
  else
    Except.error ("Unsupported mode " ++ sel ++ ", please choose one of: "
      ++ String.intercalate "," limitSelectList)

/-- The deduplicating append of `limit_reduce` (lines 176-180): a match
is appended only when no item with the same identifying value is
already in `out`. -/
def dedupStep (key : String) (out : List Item) (m : Item) : List Item :=
  if out.any (fun item => item.get key == m.get key) then out else out ++ [m]

/-- The `for limit in limits` loop of `limit_reduce`, threading the
accumulated output. -/
def limit_reduce_loop (rfn : String → String → Bool) (config : List Item) (key : String)
    (sel : String) : List String → List Item → Except String (List Item)
  | [], out => Except.ok out
  | limit :: rest, out =>
    match limit_matched rfn config key sel limit with
    | Except.error e => Except.error e
    | Except.ok matched =>
      limit_reduce_loop rfn config key sel rest (matched.foldl (dedupStep key) out)

/-- `limit_reduce` (nexus3ctl.py lines 144-182): reduce a list to the
allowed items.  The string/sep splitting of `limits` is done by the
caller; an empty `limits` list returns `config` unchanged before any
strategy dispatch. -/
def limit_reduce (rfn : String → String → Bool) (config : List Item) (key : String)
    (limits : List String) (select : Option String) : Except String (List Item) :=
  let sel := limit_select_norm select
  if limits = [] then Except.ok config
  else limit_reduce_loop rfn config key sel limits []

/-- Reference selection for the `exact` strategy, written from the
spec's words: for each rule in order take the matching items in input
order, concatenate, and keep only the first item of each identifying
value. -/
def select_exact_spec (config : List Item) (key : String) (rules : List String) : List Item :=
  (rules.flatMap (fun r => config.filter (fun item => item.get key == some r))).foldl
    (dedupStep key) []

/-- State of the `control_list` accumulator walk.  Python's `out =
defaults` makes `out` an alias of the `defaults` list object, so the
state tracks whether `out` currently aliases the defaults (`aliased`),
the current value of the defaults object (`ds`) and the current value
of the separate accumulator object (`o`). -/
structure CLState where
  aliased : Bool
  ds : List String
  o : List String
deriving DecidableEq, Repr

/-- The list object `out` currently points to. -/
def clOut (s : CLState) : List String :=
  if s.aliased then s.ds else s.o

/-- One iteration of the `for conf in config` loop of `control_list`
(lines 200-223): empty tokens are skipped; `ALL` rebinds `out` to the
defaults object, `NONE` rebinds it to a fresh empty list; otherwise a
leading `-` removes (Python `list.remove`: first occurrence, only
when present) and a leading `+` or a plain token adds when absent.
Mutations through `out` while it aliases the defaults hit `ds`. -/
def clStep (s : CLState) (conf : String) : CLState :=
  if conf = "" then s
  else
    let nameAct : String × Bool :=
      if strStartsWith conf "-" then (conf.drop 1, true)
      else if strStartsWith conf "+" then (conf.drop 1, false)
      else (conf, false)
    let name := nameAct.1
    let isRemove := nameAct.2
    if conf = "ALL" then { s with aliased := true }
    else if conf = "NONE" then { s with aliased := false, o := [] }
    else if isRemove then
      if name ∈ clOut s then
        if s.aliased then { s with ds := s.ds.erase name }
        else { s with o := s.o.erase name }
      else s
    else
      if name ∈ clOut s then s
      else if s.aliased then { s with ds := s.ds ++ [name] }
      else { s with o := s.o ++ [name] }

/-- Lines 195-196 of `control_list`: the default token is prepended
when it is non-null and does not occur anywhere in the token list. -/
def control_list_tokens (config : List String) (default : Option String) : List String :=
  match default with
  | none => config
  | some d => if d ∈ config then config else d :: config

/-- `control_list` (nexus3ctl.py lines 185-225) on an already-split
token list.  Returns the final accumulator (Python wraps it in
`list(set(out))`, whose order is unspecified, so results are compared
as sets) together with the final value of the caller's `defaults` list
(`defaults or []` rebinds a falsy defaults to a fresh list, so an empty
defaults is never visible mutated to the caller). -/
def control_list (config : List String) (defaults : List String) (default : Option String) :
    List String × List String :=
  let tokens := control_list_tokens config default
  let s := tokens.foldl clStep { aliased := false, ds := defaults, o := [] }
  let dsAfter := if defaults = [] then defaults else s.ds
  (clOut s, dsAfter)

/-- String form of `control_list`: `config.split(delim)` first. -/
def control_list_str (config : String) (defaults : List String) (delim : String)
    (default : Option String) : List String × List String :=
  control_list (config.splitOn delim) defaults default

/-- Reference walk written from the claim's words: the accumulator is a
plain value, `ALL` resets it to (a copy of) the given defaults, `NONE`
to empty, `-name` removes, `+name` or a plain token adds when absent,
empty tokens are skipped. -/
def resolveSpecStep (defaults : List String) (acc : List String) (conf : String) : List String :=
  if conf = "" then acc
  else if conf = "ALL" then defaults
  else if conf = "NONE" then []
  else if strStartsWith conf "-" then acc.erase (conf.drop 1)
  else if strStartsWith conf "+" then
    (if conf.drop 1 ∈ acc then acc else acc ++ [conf.drop 1])
  else if conf ∈ acc then acc else acc ++ [conf]

/-- Reference resolver written from the claim's words, over the same
prepended token list as the code. -/
def resolveSpec (config : List String) (defaults : List String) (default : Option String) :
    List String :=
  (control_list_tokens config default).foldl (resolveSpecStep defaults) []

/-- `nexus_remap_format` (lines 353-357). -/
def nexus_remap_format (name : String) : String :=
  if name = "maven2" then "maven" else name

/-- `nexus_sort_repos` (lines 359-367): sort key placing file names
containing `hosted` first, then those containing `proxy`, then the
rest. -/
def nexus_sort_repos (file_name : String) : Nat :=
  if strContains file_name "hosted" then 1
  else if strContains file_name "proxy" then 2
  else 3

/-- The ordering applied by `cli_import_repos` (line 767):
`sorted(files, key=self.nexus_sort_repos)` -- a stable sort by the
`nexus_sort_repos` key. -/
def cli_import_repos_order (files : List String) : List String :=
  files.mergeSort (fun a b => nexus_sort_repos a ≤ nexus_sort_repos b)

/-- A role item: a Python dict whose `roles` and `privileges` fields
are lists.  `getD` is Python `dict.get(k, default)`. -/
abbrev Role := List (String × List String)

/-- Python `item.get(k, d)` on a role dict. -/
def Role.getD (item : Role) (k : String) (d : List String) : List String :=
  match List.find? (fun p => p.1 == k) item with
  | none => d
  | some p => p.2

/-- `nexus_sort_roles` (lines 369-374). -/
def nexus_sort_roles (item : Role) : Nat :=
  (Role.getD item "roles" []).length * 3 + (Role.getD item "privileges" []).length

/-- The ordering applied by `cli_import_roles` (line 717):
`sorted(items, key=self.nexus_sort_roles)`. -/
def cli_import_roles_order (items : List Role) : List Role :=
  items.mergeSort (fun a b => nexus_sort_roles a ≤ nexus_sort_roles b)

/-- HTTP methods the client issues. -/
inductive Method
  | GET | PUT | POST | DELETE
deriving DecidableEq, Repr

/-- A transport call actually issued to the network. -/
abbrev Call := Method × String

/-- The external server: status code of a real request, and the JSON
body (`response.json()`) of a successful GET, as a dict (`bodyD`) or a
list (`bodyL`) depending on the endpoint. -/
structure Net where
  status : Method → String → Nat
  bodyD : String → Item
  bodyL : String → List Item

/-- `Nexus3Ctl.api_client` (lines 303-346): in dry mode only `GET` is
issued for real, every other method is short-circuited to a synthetic
`FakeResponse(200)`; outside dry mode every method is issued.  A 401
status raises.  The result is the status together with the list of
calls actually issued. -/
def api_client (dry : Bool) (net : Net) (method : Method) (url_path : String) :
    Except String Nat × List Call :=
  let issued : Nat × List Call := (net.status method url_path, [(method, url_path)])
  let r : Nat × List Call :=
    match dry, method with
    | true, Method.GET => issued
    | true, _ => (200, [])
    | false, _ => issued
  if r.1 = 401 then (Except.error "Could not authenticate against API, got 401", r.2)
  else (Except.ok r.1, r.2)

/-- Python truthiness of an optional string (`None` and `""` falsy). -/
def truthyOptStr (s : Option String) : Bool :=
  match s with
  | none => false
  | some v => v ≠ ""

/-- The second half of `api_get_repo` (lines 404-414): remap the
format, fetch `repositories/{format}/{type}/{name}`, return the body
on 200 and the empty dict otherwise. -/
def api_get_repo_fetch (dry : Bool) (net : Net) (name repo_format repo_type : String) :
    Except String Item × List Call :=
  let fmt := nexus_remap_format repo_format
  let path := "repositories/" ++ fmt ++ "/" ++ repo_type ++ "/" ++ name
  let (r, c) := api_client dry net Method.GET path
  match r with
  | Except.error e => (Except.error e, c)
  | Except.ok code =>
    if code = 200 then (Except.ok (net.bodyD path), c)
    else (Except.ok [], c)

/-- `Nexus3Ctl.api_get_repo` (lines 390-414): when format or type is
missing (falsy), first GET `repositories/{name}` to discover them,
returning the empty dict when that fetch is not a 200. -/
def api_get_repo (dry : Bool) (net : Net) (name : String)
    (repo_format repo_type : Option String) : Except String Item × List Call :=
  if truthyOptStr repo_format = false ∨ truthyOptStr repo_type = false then
    let path := "repositories/" ++ name
    let (r, c) := api_client dry net Method.GET path
    match r with
    | Except.error e => (Except.error e, c)
    | Except.ok code =>
      if code = 200 then
        let payload := net.bodyD path
        match payload.get "format", payload.get "type" with
        | some f, some t =>
          let (r2, c2) := api_get_repo_fetch dry net name f t
          (r2, c ++ c2)
        | _, _ => (Except.error "KeyError", c)
      else (Except.ok [], c)
  else
    api_get_repo_fetch dry net name (repo_format.getD "") (repo_type.getD "")

/-- `Nexus3Ctl.api_set_repo` (lines 416-459): look the repo up, remap
the format, strip `url`, then in dry mode fabricate `204` (update) or
`201` (create) without any call, otherwise PUT or POST.  The result is
the final status with the issued calls. -/
def api_set_repo (dry : Bool) (net : Net) (config : Item) : Except String Nat × List Call :=
  match config.get "name" with
  | none => (Except.error "KeyError: name", [])
  | some name =>
    let (cur, c1) := api_get_repo dry net name none none
    match cur with
    | Except.error e => (Except.error e, c1)
    | Except.ok current =>
      match config.get "format" with
      | none => (Except.error "KeyError: format", c1)
      | some f0 =>
        let config := (config.set "format" (nexus_remap_format f0)).eraseKey "url"
        let fmt := nexus_remap_format f0
        match config.get "type" with
        | none => (Except.error "KeyError: type", c1)
        | some ty =>
          if dry then
            (Except.ok (if current ≠ [] then 204 else 201), c1)
          else if current ≠ [] then
            let (r, c2) := api_client dry net Method.PUT
              ("repositories/" ++ fmt ++ "/" ++ ty ++ "/" ++ name)
            (r, c1 ++ c2)
          else
            let (r, c2) := api_client dry net Method.POST ("repositories/" ++ fmt ++ "/" ++ ty)
            (r, c1 ++ c2)

/-- `Nexus3Ctl.api_get_role` (lines 485-495). -/
def api_get_role (dry : Bool) (net : Net) (ident : String) : Except String Item × List Call :=
  let path := "security/roles/" ++ ident
  let (r, c) := api_client dry net Method.GET path
  match r with
  | Except.error e => (Except.error e, c)
  | Except.ok code =>
    if code = 200 then (Except.ok (net.bodyD path), c) else (Except.ok [], c)

/-- `Nexus3Ctl.api_set_role` (lines 497-529): in dry mode fabricate
`200` (existing) or `204` (new) without any mutating call. -/
def api_set_role (dry : Bool) (net : Net) (config : Item) (identArg : Option String) :
    Except String Nat × List Call :=
  match (if truthyOptStr identArg then identArg else config.get "id") with
  | none => (Except.error "KeyError: id", [])
  | some ident =>
    let (cur, c1) := api_get_role dry net ident
    match cur with
    | Except.error e => (Except.error e, c1)
    | Except.ok current =>
      if dry then (Except.ok (if current ≠ [] then 200 else 204), c1)
      else if current ≠ [] then
        let (r, c2) := api_client dry net Method.PUT ("security/roles/" ++ ident)
        (r, c1 ++ c2)
      else
        let (r, c2) := api_client dry net Method.POST "security/roles"
        (r, c1 ++ c2)

/-- `Nexus3Ctl.api_get_ldap` (lines 545-554). -/
def api_get_ldap (dry : Bool) (net : Net) (ident : String) : Except String Item × List Call :=
  let path := "security/ldap/" ++ ident
  let (r, c) := api_client dry net Method.GET path
  match r with
  | Except.error e => (Except.error e, c)
  | Except.ok code =>
    if code = 200 then (Except.ok (net.bodyD path), c) else (Except.ok [], c)

/-- `Nexus3Ctl.api_set_ldap` (lines 556-596): updates are not supported
by the remote API, so an existing endpoint yields a fabricated `204`
even outside dry mode; creation POSTs. -/
def api_set_ldap (dry : Bool) (net : Net) (config : Item) (nameArg : Option String) :
    Except String Nat × List Call :=
  match (if truthyOptStr nameArg then nameArg else config.get "name") with
  | none => (Except.error "KeyError: name", [])
  | some ident =>
    let (cur, c1) := api_get_ldap dry net ident
    match cur with
    | Except.error e => (Except.error e, c1)
    | Except.ok current =>
      if dry then (Except.ok (if current ≠ [] then 204 else 201), c1)
      else if current ≠ [] then (Except.ok 204, c1)
      else
        let (r, c2) := api_client dry net Method.POST "security/ldap"
        (r, c1 ++ c2)

/-- `Nexus3Ctl.api_set_realms` (lines 612-629): dry mode fabricates a
`200`, otherwise a PUT of the whole realm list. -/
def api_set_realms (dry : Bool) (net : Net) (config : List String) :
    Except String Nat × List Call :=
  if dry then (Except.ok 200, [])
  else api_client dry net Method.PUT "security/realms/active"

/-- `Nexus3Ctl.api_get_repos` (lines 379-388): fetch the collection,
then apply `limit_reduce` client-side when `limits` is non-empty; a
non-200 fetch yields the empty collection (Python returns `{}`). -/
def api_get_repos (rfn : String → String → Bool) (dry : Bool) (net : Net)
    (limits : List String) (select : Option String) :
    Except String (List Item) × List Call :=
  let (r, c) := api_client dry net Method.GET "repositories"
  match r with
  | Except.error e => (Except.error e, c)
  | Except.ok code =>
    if code = 200 then
      let out := net.bodyL "repositories"
      if limits ≠ [] then (limit_reduce rfn out "name" limits select, c)
      else (Except.ok out, c)
    else (Except.ok [], c)

/-- A server that answers every request with 200 and empty bodies
(used to instantiate universally quantified theorems). -/
def netOk : Net :=
  { status := fun _ _ => 200, bodyD := fun _ => [], bodyL := fun _ => [] }

/-- The role with no nested roles and no privileges (score 0). -/
def roleA : Role := [("roles", []), ("privileges", [])]

/-- The role with one nested role and no privileges (score 3). -/
def roleB : Role := [("roles", ["x"]), ("privileges", [])]

/-! ## Lemmas about `limit_reduce` -/

theorem limit_reduce_loop_exact (rfn : String → String → Bool) (config : List Item)
    (key : String) (rules : List String) (out : List Item) :
    limit_reduce_loop rfn config key "exact" rules out
      = Except.ok
          ((rules.flatMap (fun r => config.filter (fun item => item.get key == some r))).foldl
            (dedupStep key) out) := by
  induction rules generalizing out with
  | nil => simp [limit_reduce_loop]
  | cons r rest ih =>
    simp [limit_reduce_loop, limit_matched, List.flatMap_cons, List.foldl_append, ih]

theorem dedupStep_subset (key : String) (out : List Item) (m : Item) :
    out ⊆ dedupStep key out m := by
  unfold dedupStep
  split
  · exact List.Subset.refl _
  · exact fun x h => List.mem_append_left _ h

theorem foldl_dedupStep_subset (key : String) :
    ∀ (l : List Item) (out : List Item), out ⊆ l.foldl (dedupStep key) out := by
  intro l
  induction l with
  | nil => intro out; simp
  | cons m t ih =>
    intro out x hx
    rw [List.foldl_cons]
    exact ih (dedupStep key out m) (dedupStep_subset key out m hx)

theorem mem_dedupStep (key : String) (out : List Item) (m x : Item)
    (hx : x ∈ dedupStep key out m) : x ∈ out ∨ x = m := by
  unfold dedupStep at hx
  split at hx
  · exact Or.inl hx
  · rcases List.mem_append.1 hx with h | h
    · exact Or.inl h
    · exact Or.inr (List.mem_singleton.1 h)

theorem mem_foldl_dedupStep (key : String) :
    ∀ (l : List Item) (out : List Item) (x : Item),
      x ∈ l.foldl (dedupStep key) out → x ∈ out ∨ x ∈ l := by
  intro l
  induction l with
  | nil => intro out x hx; simpa using hx
  | cons m t ih =>
    intro out x hx
    rw [List.foldl_cons] at hx
    rcases ih (dedupStep key out m) x hx with h | h
    · rcases mem_dedupStep key out m x h with h' | h'
      · exact Or.inl h'
      · exact Or.inr (by simp [h'])
    · exact Or.inr (List.mem_cons_of_mem _ h)

theorem nodup_keys_dedupStep (key : String) (out : List Item) (m : Item)
    (h : (out.map (fun item => item.get key)).Nodup) :
    ((dedupStep key out m).map (fun item => item.get key)).Nodup := by
  unfold dedupStep
  split
  · exact h
  · rename_i hany
    have hnot : m.get key ∉ out.map (fun item => item.get key) := by
      intro hmem
      rcases List.mem_map.1 hmem with ⟨y, hy, hget⟩
      exact hany (List.any_eq_true.2 ⟨y, hy, by simp [hget]⟩)
    rw [List.map_append, List.nodup_append]
    refine ⟨h, by simp, ?_⟩
    intro a ha hb
    simp only [List.map_cons, List.map_nil, List.mem_singleton] at hb
    rw [hb] at ha
    exact hnot ha

theorem nodup_keys_foldl_dedupStep (key : String) :
    ∀ (l : List Item) (out : List Item),
      (out.map (fun item => item.get key)).Nodup →
      ((l.foldl (dedupStep key) out).map (fun item => item.get key)).Nodup := by
  intro l
  induction l with
  | nil => intro out h; simpa using h
  | cons m t ih =>
    intro out h
    rw [List.foldl_cons]
    exact ih (dedupStep key out m) (nodup_keys_dedupStep key out m h)

theorem keyrep_dedupStep (key : String) (out : List Item) (m : Item) :
    ∃ y ∈ dedupStep key out m, y.get key = m.get key := by
  unfold dedupStep
  split
  · rename_i hany
    rcases List.any_eq_true.1 hany with ⟨y, hy, hbeq⟩
    exact ⟨y, hy, by simpa using hbeq⟩
  · exact ⟨m, by simp, rfl⟩

theorem keyrep_mono_foldl (key : String) (l : List Item) (out : List Item) (v : Option String)
    (h : ∃ y ∈ out, y.get key = v) :
    ∃ y ∈ l.foldl (dedupStep key) out, y.get key = v := by
  rcases h with ⟨y, hy, hv⟩
  exact ⟨y, foldl_dedupStep_subset key l out hy, hv⟩

theorem keyrep_foldl_of_mem (key : String) :
    ∀ (l : List Item) (out : List Item) (x : Item), x ∈ l →
      ∃ y ∈ l.foldl (dedupStep key) out, y.get key = x.get key := by
  intro l
  induction l with
  | nil => intro out x hx; cases hx
  | cons m t ih =>
    intro out x hx
    rw [List.foldl_cons]
    rcases List.mem_cons.1 hx with rfl | hx'
    · exact keyrep_mono_foldl key t (dedupStep key out x) _ (keyrep_dedupStep key out x)
    · exact ih (dedupStep key out m) x hx'

/-- C1: with strategy `exact` and a non-empty rule list, `limit_reduce`
returns exactly the items whose key field equals some rule, with no
duplicate identifying keys, ordered rule-by-rule in the order the rules
were given and, within one rule, by first occurrence in the input
collection -- i.e. it coincides with the reference `select_exact_spec`. -/
theorem C1_select_exact (rfn : String → String → Bool) (config : List Item) (key : String)
    (rules : List String) (hrules : rules ≠ []) :
    limit_reduce rfn config key rules (some "exact")
        = Except.ok (select_exact_spec config key rules)
      ∧ (∀ x ∈ select_exact_spec config key rules,
          x ∈ config ∧ ∃ r ∈ rules, x.get key = some r)
      ∧ ((select_exact_spec config key rules).map (fun item => item.get key)).Nodup
      ∧ ∀ x ∈ config, (∃ r ∈ rules, x.get key = some r) →
          ∃ y ∈ select_exact_spec config key rules, y.get key = x.get key := by
  refine ⟨?_, ?_, ?_, ?_⟩
  · unfold limit_reduce
    rw [if_neg hrules]
    rw [show limit_select_norm (some "exact") = "exact" from rfl]
    rw [limit_reduce_loop_exact]
    rfl
  · intro x hx
    unfold select_exact_spec at hx
    rcases mem_foldl_dedupStep key _ [] x hx with h | h
    · cases h
    · rcases List.mem_flatMap.1 h with ⟨r, hr, hx'⟩
      rcases List.mem_filter.1 hx' with ⟨hxc, hbeq⟩
      exact ⟨hxc, r, hr, by simpa using hbeq⟩
  · exact nodup_keys_foldl_dedupStep key _ [] (by simp)
  · intro x hxc hex
    rcases hex with ⟨r, hr, hv⟩
    apply keyrep_foldl_of_mem
    exact List.mem_flatMap.2 ⟨r, hr, List.mem_filter.2 ⟨hxc, by simp [hv]⟩⟩

/-- Witness for C1 at a concrete input. -/
theorem C1_select_exact_witness :
    ((["b", "a"] : List String) ≠ [])
      ∧ limit_reduce (fun _ _ => false) [[("name", "b")], [("name", "a")], [("name", "b")]]
          "name" ["b", "a"] (some "exact")
        = Except.ok (select_exact_spec [[("name", "b")], [("name", "a")], [("name", "b")]]
            "name" ["b", "a"]) :=
  ⟨by decide,
   (C1_select_exact (fun _ _ => false) [[("name", "b")], [("name", "a")], [("name", "b")]]
     "name" ["b", "a"] (by decide)).1⟩

theorem exceptFilter_error_of_mem (p : α → Except String Bool) (x : α) (e : String)
    (he : p x = Except.error e) :
    ∀ l : List α, x ∈ l → ∃ e', exceptFilter p l = Except.error e' := by
  intro l
  induction l with
  | nil => intro hx; cases hx
  | cons y t ih =>
    intro hx
    unfold exceptFilter
    cases hpy : p y with
    | error e2 => exact ⟨e2, rfl⟩
    | ok b =>
      rcases List.mem_cons.1 hx with rfl | hx'
      · rw [he] at hpy; cases hpy
      · rcases ih hx' with ⟨e', he'⟩
        rw [he']
        exact ⟨e', rfl⟩

theorem limit_matched_contains_error (rfn : String → String → Bool) (config : List Item)
    (key limit : String) (hmiss : ∃ item ∈ config, item.get key = none) :
    ∃ e, limit_matched rfn config key "contains" limit = Except.error e := by
  rcases hmiss with ⟨item, hitem, hnone⟩
  unfold limit_matched
  simp only [reduceIte, String.reduceEq]
  exact exceptFilter_error_of_mem _ item
    "TypeError: argument of type NoneType is not iterable" (by simp [hnone]) config hitem

theorem limit_matched_startswith_error (rfn : String → String → Bool) (config : List Item)
    (key limit : String) (hmiss : ∃ item ∈ config, item.get key = none) :
    ∃ e, limit_matched rfn config key "startswith" limit = Except.error e := by
  rcases hmiss with ⟨item, hitem, hnone⟩
  unfold limit_matched
  simp only [reduceIte, String.reduceEq]
  exact exceptFilter_error_of_mem _ item
    "AttributeError: NoneType object has no startswith" (by simp [hnone]) config hitem

theorem limit_matched_endswith_error (rfn : String → String → Bool) (config : List Item)
    (key limit : String) (hmiss : ∃ item ∈ config, item.get key = none) :
    ∃ e, limit_matched rfn config key "endswith" limit = Except.error e := by
  rcases hmiss with ⟨item, hitem, hnone⟩
  unfold limit_matched
  simp only [reduceIte, String.reduceEq]
  exact exceptFilter_error_of_mem _ item
    "AttributeError: NoneType object has no endswith" (by simp [hnone]) config hitem

theorem limit_matched_regex_error (rfn : String → String → Bool) (config : List Item)
    (key limit : String) (hmiss : ∃ item ∈ config, item.get key = none) :
    ∃ e, limit_matched rfn config key "regex" limit = Except.error e := by
  rcases hmiss with ⟨item, hitem, hnone⟩
  unfold limit_matched
  simp only [reduceIte, String.reduceEq]
  exact exceptFilter_error_of_mem _ item
    "TypeError: expected string or bytes-like object" (by simp [hnone]) config hitem

/-- C3 (amended): under the `exact` strategy an item lacking the key
field is merely a non-match and `limit_reduce` always returns normally;
under `contains`, `startswith`, `endswith` and `regex`, however, a
collection containing an item that lacks the key field makes
`limit_reduce` fail with a type/attribute error for every non-empty
rule list, instead of treating the item as a non-match. -/
theorem C3_missing_key (rfn : String → String → Bool) (config : List Item) (key : String)
    (rules : List String) (sel : String) :
    (∃ l, limit_reduce rfn config key rules (some "exact") = Except.ok l)
    ∧ ((sel = "contains" ∨ sel = "startswith" ∨ sel = "endswith" ∨ sel = "regex") →
        rules ≠ [] → (∃ item ∈ config, item.get key = none) →
        ∃ e, limit_reduce rfn config key rules (some sel) = Except.error e) := by
  constructor
  · by_cases h : rules = []
    · exact ⟨config, by simp [limit_reduce, h]⟩
    · refine ⟨(rules.flatMap (fun r =>
          config.filter (fun item => item.get key == some r))).foldl (dedupStep key) [], ?_⟩
      unfold limit_reduce
      rw [if_neg h]
      rw [show limit_select_norm (some "exact") = "exact" from rfl]
      exact limit_reduce_loop_exact rfn config key rules []
  · intro hsel hrules hmiss
    cases rules with
    | nil => exact absurd rfl hrules
    | cons r rest =>
      rcases hsel with rfl | rfl | rfl | rfl
      · rcases limit_matched_contains_error rfn config key r hmiss with ⟨e, he⟩
        refine ⟨e, ?_⟩
        unfold limit_reduce
        rw [if_neg (by simp)]
        rw [show limit_select_norm (some "contains") = "contains" from rfl]
        unfold limit_reduce_loop
        rw [he]
      · rcases limit_matched_startswith_error rfn config key r hmiss with ⟨e, he⟩
        refine ⟨e, ?_⟩
        unfold limit_reduce
        rw [if_neg (by simp)]
        rw [show limit_select_norm (some "startswith") = "startswith" from rfl]
        unfold limit_reduce_loop
        rw [he]
      · rcases limit_matched_endswith_error rfn config key r hmiss with ⟨e, he⟩
        refine ⟨e, ?_⟩
        unfold limit_reduce
        rw [if_neg (by simp)]
        rw [show limit_select_norm (some "endswith") = "endswith" from rfl]
        unfold limit_reduce_loop
        rw [he]
      · rcases limit_matched_regex_error rfn config key r hmiss with ⟨e, he⟩
        refine ⟨e, ?_⟩
        unfold limit_reduce
        rw [if_neg (by simp)]
        rw [show limit_select_norm (some "regex") = "regex" from rfl]
        unfold limit_reduce_loop
        rw [he]

/-- Witness for C3 at a concrete input. -/
theorem C3_missing_key_witness :
    (("contains" = "contains" ∨ "contains" = "startswith" ∨ "contains" = "endswith"
        ∨ "contains" = "regex")
      ∧ (["a"] : List String) ≠ []
      ∧ (∃ item ∈ [[("other", "x")]], Item.get item "name" = none))
    ∧ ∃ e, limit_reduce (fun _ _ => false) [[("other", "x")]] "name" ["a"] (some "contains")
        = Except.error e :=
  ⟨⟨Or.inl rfl, by decide, ⟨[("other", "x")], by decide, rfl⟩⟩,
   (C3_missing_key (fun _ _ => false) [[("other", "x")]] "name" ["a"] "contains").2
     (Or.inl rfl) (by decide) ⟨[("other", "x")], by decide, rfl⟩⟩

/-- C3 counterexample: the claim as stated is false -- with an item
lacking the `name` field, the `contains` strategy raises instead of
returning normally. -/
theorem C3_counterexample :
    limit_reduce (fun _ _ => false) [[("other", "x")]] "name" ["a"] (some "contains")
      = Except.error "TypeError: argument of type NoneType is not iterable" := rfl

/-- C10: with an empty rule list, `limit_reduce` returns the input
collection unchanged, for every key and every strategy value. -/
theorem C10_empty_limits (rfn : String → String → Bool) (config : List Item) (key : String)
    (select : Option String) :
    limit_reduce rfn config key [] select = Except.ok config := rfl

/-! ## Lemmas about `control_list` -/

theorem clStep_no_all (conf : String) (ds o d' : List String) (h : conf ≠ "ALL") :
    clStep { aliased := false, ds := ds, o := o } conf
      = { aliased := false, ds := ds, o := resolveSpecStep d' o conf } := by
  by_cases h0 : conf = ""
  · simp [clStep, resolveSpecStep, h0]
  by_cases h1 : conf = "NONE"
  · simp [clStep, resolveSpecStep, clOut, h0, h1]
  by_cases h2 : strStartsWith conf "-"
  · by_cases hm : conf.drop 1 ∈ o
    · simp [clStep, resolveSpecStep, clOut, h0, h1, h, h2, hm]
    · simp [clStep, resolveSpecStep, clOut, h0, h1, h, h2, hm, List.erase_of_not_mem hm]
  by_cases h3 : strStartsWith conf "+"
  · by_cases hm : conf.drop 1 ∈ o
    · simp [clStep, resolveSpecStep, clOut, h0, h1, h, h2, h3, hm]
    · simp [clStep, resolveSpecStep, clOut, h0, h1, h, h2, h3, hm]
  · by_cases hm : conf ∈ o
    · simp [clStep, resolveSpecStep, clOut, h0, h1, h, h2, h3, hm]
    · simp [clStep, resolveSpecStep, clOut, h0, h1, h, h2, h3, hm]

theorem cl_foldl_no_all (ds d' : List String) :
    ∀ (tokens : List String) (o : List String), "ALL" ∉ tokens →
      tokens.foldl clStep { aliased := false, ds := ds, o := o }
        = { aliased := false, ds := ds, o := tokens.foldl (resolveSpecStep d') o } := by
  intro tokens
  induction tokens with
  | nil => intro o _; rfl
  | cons t ts ih =>
    intro o h
    rw [List.foldl_cons, List.foldl_cons,
      clStep_no_all t ds o d' (by rintro rfl; exact h (List.mem_cons_self _ _))]
    exact ih _ (fun hc => h (List.mem_cons_of_mem _ hc))

/-- C2 (amended): `control_list` walks the (possibly prepended) token
list left to right where `NONE` resets the accumulator to empty,
`-name` removes, a plain or `+name` token adds when absent and empty
tokens are skipped, but `ALL` rebinds the accumulator to the defaults
list object itself (not a copy), so add/remove tokens evaluated after
an `ALL` mutate the defaults in place and a later `ALL` restores that
mutated list.  Whenever the token stream contains no `ALL` the walk
coincides with the claimed copy-semantics walk, and both quoted
examples hold: `resolve("a,-a,+b", [], NONE) = {"b"}` and
`resolve("-x", ["x","y"], ALL) = {"y"}`. -/
theorem C2_resolve :
    ((control_list ["a", "-a", "+b"] [] (some "NONE")).1.toFinset = ({"b"} : Finset String))
    ∧ ((control_list ["-x"] ["x", "y"] (some "ALL")).1.toFinset = ({"y"} : Finset String))
    ∧ ∀ (config defaults : List String) (default : Option String),
        "ALL" ∉ control_list_tokens config default →
        (control_list config defaults default).1 = resolveSpec config defaults default := by
  refine ⟨by decide, by decide, ?_⟩
  intro config defaults default h
  simp only [control_list, resolveSpec]
  rw [cl_foldl_no_all defaults defaults _ [] h]
  rfl

/-- Witness for the universal part of C2 at a concrete input. -/
theorem C2_resolve_witness :
    ("ALL" ∉ control_list_tokens ["a", "b", "-a"] none)
    ∧ (control_list ["a", "b", "-a"] ["q"] none).1 = resolveSpec ["a", "b", "-a"] ["q"] none :=
  ⟨by decide, C2_resolve.2.2 ["a", "b", "-a"] ["q"] none (by decide)⟩

/-- C2 counterexample: the claimed copy-semantics walk (ALL resets the
accumulator to the given defaults) disagrees with the code on
`resolve("ALL,x,NONE,ALL", defaults=["d"])`: the code yields
`{"d","x"}` because the `x` added while the accumulator aliased the
defaults mutated them in place, while the claimed walk yields `{"d"}`. -/
theorem C2_counterexample :
    (control_list ["ALL", "x", "NONE", "ALL"] ["d"] none).1.toFinset
      ≠ (resolveSpec ["ALL", "x", "NONE", "ALL"] ["d"] none).toFinset := by decide

/-- C6 (amended): `control_list` prepends the default token if and only
if it does not occur anywhere in the expression's token list (not
merely when it is not the first token); when it is absent the call is
the same as evaluating with the token explicitly prepended. -/
theorem C6_prepend :
    ∀ (config defaults : List String) (d : String),
      (control_list_tokens config (some d) = d :: config ↔ d ∉ config)
      ∧ (control_list_tokens config (some d) = config ↔ d ∈ config)
      ∧ (d ∉ config →
          control_list config defaults (some d) = control_list (d :: config) defaults none) := by
  intro config defaults d
  refine ⟨⟨?_, ?_⟩, ⟨?_, ?_⟩, ?_⟩
  · intro he hmem
    rw [show control_list_tokens config (some d) = config by
      simp [control_list_tokens, hmem]] at he
    have := congrArg List.length he
    simp at this
  · intro h
    simp [control_list_tokens, h]
  · intro he
    by_cases hmem : d ∈ config
    · exact hmem
    · rw [show control_list_tokens config (some d) = d :: config by
        simp [control_list_tokens, hmem]] at he
      have := congrArg List.length he
      simp at this
  · intro h
    simp [control_list_tokens, h]
  · intro h
    simp only [control_list, control_list_tokens, if_neg h]

/-- Witness for the last part of C6 at a concrete input. -/
theorem C6_prepend_witness :
    ("ALL" ∉ (["a"] : List String))
    ∧ control_list ["a"] ["z"] (some "ALL") = control_list ("ALL" :: ["a"]) ["z"] none :=
  ⟨by decide, (C6_prepend ["a"] ["z"] "ALL").2.2 (by decide)⟩

/-- C6 counterexample: with expression `["a","ALL"]` and default token
`ALL`, the default is not the first token, yet the code does not
prepend it (it only checks membership anywhere in the list), and the
result differs from the evaluation with the token prepended. -/
theorem C6_counterexample :
    ((["a", "ALL"] : List String).head? ≠ some "ALL")
    ∧ control_list_tokens ["a", "ALL"] (some "ALL") ≠ "ALL" :: ["a", "ALL"]
    ∧ (control_list ["a", "ALL"] ["z"] (some "ALL")).1.toFinset
        ≠ (control_list ("ALL" :: ["a", "ALL"]) ["z"] none).1.toFinset := by decide

/-- C7 (amended): evaluating `ALL` rebinds the accumulator to the
defaults list object itself, not a copy, so removal (or addition)
tokens evaluated after an `ALL` mutate the defaults argument in place:
`resolve("-x", ["x","y"], ALL)` returns `{"y"}` and leaves the defaults
equal to `["y"]`.  The defaults are returned unmodified whenever the
evaluated token stream contains no `ALL`. -/
theorem C7_all_aliases :
    (∀ (config defaults : List String) (default : Option String),
        "ALL" ∉ control_list_tokens config default →
        (control_list config defaults default).2 = defaults)
    ∧ control_list ["-x"] ["x", "y"] (some "ALL") = (["y"], ["y"]) := by
  constructor
  · intro config defaults default h
    simp only [control_list]
    rw [cl_foldl_no_all defaults defaults _ [] h]
    split <;> rfl
  · decide

/-- Witness for the universal part of C7 at a concrete input. -/
theorem C7_all_aliases_witness :
    ("ALL" ∉ control_list_tokens ["a"] none)
    ∧ (control_list ["a"] ["q"] none).2 = ["q"] :=
  ⟨by decide, C7_all_aliases.1 ["a"] ["q"] none (by decide)⟩

/-- C7 counterexample: `resolve("-x", defaults=["x","y"], ALL)` leaves
the defaults list mutated to `["y"]`, refuting the claim that the
defaults argument is never modified. -/
theorem C7_counterexample :
    (control_list ["-x"] ["x", "y"] (some "ALL")).2 ≠ ["x", "y"] := by decide

/-! ## Lemmas about the API client and dry mode -/

theorem api_client_sub (dry : Bool) (net : Net) (m : Method) (p : String) :
    ∀ c ∈ (api_client dry net m p).2, c = (m, p) := by
  intro c hc
  unfold api_client at hc
  cases dry <;> cases m <;> dsimp only at hc <;> (try split at hc) <;> simpa using hc

theorem api_client_dry_mutating (net : Net) (m : Method) (p : String) (h : m ≠ Method.GET) :
    api_client true net m p = (Except.ok 200, []) := by
  cases m with
  | GET => exact absurd rfl h
  | PUT => rfl
  | POST => rfl
  | DELETE => rfl

theorem api_client_dry_get (net : Net) (p : String) :
    (api_client true net Method.GET p).2 = [(Method.GET, p)] := by
  unfold api_client
  dsimp only
  split <;> rfl

theorem api_get_repo_fetch_calls (dry : Bool) (net : Net) (n f t : String) :
    ∀ c ∈ (api_get_repo_fetch dry net n f t).2, c.1 = Method.GET := by
  intro c hc
  unfold api_get_repo_fetch at hc
  dsimp only at hc
  have hsub := api_client_sub dry net Method.GET
    ("repositories/" ++ nexus_remap_format f ++ "/" ++ t ++ "/" ++ n)
  rcases hcl : api_client dry net Method.GET
      ("repositories/" ++ nexus_remap_format f ++ "/" ++ t ++ "/" ++ n) with ⟨r, cs⟩
  rw [hcl] at hc hsub
  rcases r with e | code
  · exact (hsub c hc) ▸ rfl
  · simp only at hc
    split at hc <;> exact (hsub c hc) ▸ rfl

theorem api_get_repo_calls (dry : Bool) (net : Net) (name : String)
    (rf rt : Option String) :
    ∀ c ∈ (api_get_repo dry net name rf rt).2, c.1 = Method.GET := by
  intro c hc
  unfold api_get_repo at hc
  dsimp only at hc
  split at hc
  · have hsub := api_client_sub dry net Method.GET ("repositories/" ++ name)
    rcases hcl : api_client dry net Method.GET ("repositories/" ++ name) with ⟨r, cs⟩
    rw [hcl] at hc hsub
    rcases r with e | code
    · exact (hsub c hc) ▸ rfl
    · simp only at hc
      split at hc
      · rcases hpf : (net.bodyD ("repositories/" ++ name)).get "format" with _ | fv
        · rw [hpf] at hc
          dsimp only at hc
          exact (hsub c hc) ▸ rfl
        · rcases hpt : (net.bodyD ("repositories/" ++ name)).get "type" with _ | tv
          · rw [hpf, hpt] at hc
            dsimp only at hc
            exact (hsub c hc) ▸ rfl
          · rw [hpf, hpt] at hc
            dsimp only at hc
            rcases List.mem_append.1 hc with h | h
            · exact (hsub c h) ▸ rfl
            · exact api_get_repo_fetch_calls dry net name fv tv c h
      · exact (hsub c hc) ▸ rfl
  · exact api_get_repo_fetch_calls dry net name (rf.getD "") (rt.getD "") c hc

theorem api_get_role_calls (dry : Bool) (net : Net) (ident : String) :
    ∀ c ∈ (api_get_role dry net ident).2, c.1 = Method.GET := by
  intro c hc
  unfold api_get_role at hc
  dsimp only at hc
  have hsub := api_client_sub dry net Method.GET ("security/roles/" ++ ident)
  rcases hcl : api_client dry net Method.GET ("security/roles/" ++ ident) with ⟨r, cs⟩
  rw [hcl] at hc hsub
  rcases r with e | code
  · exact (hsub c hc) ▸ rfl
  · dsimp only at hc
    split at hc <;> exact (hsub c hc) ▸ rfl

theorem api_get_ldap_calls (dry : Bool) (net : Net) (ident : String) :
    ∀ c ∈ (api_get_ldap dry net ident).2, c.1 = Method.GET := by
  intro c hc
  unfold api_get_ldap at hc
  dsimp only at hc
  have hsub := api_client_sub dry net Method.GET ("security/ldap/" ++ ident)
  rcases hcl : api_client dry net Method.GET ("security/ldap/" ++ ident) with ⟨r, cs⟩
  rw [hcl] at hc hsub
  rcases r with e | code
  · exact (hsub c hc) ▸ rfl
  · dsimp only at hc
    split at hc <;> exact (hsub c hc) ▸ rfl

theorem api_set_repo_dry_calls (net : Net) (config : Item) :
    ∀ c ∈ (api_set_repo true net config).2, c.1 = Method.GET := by
  intro c hc
  unfold api_set_repo at hc
  rcases hname : config.get "name" with _ | name
  · rw [hname] at hc
    simp at hc
  · rw [hname] at hc
    dsimp only at hc
    have hget := api_get_repo_calls true net name none none
    rcases hcur : (api_get_repo true net name none none).1 with e | current
    · rw [hcur] at hc
      dsimp only at hc
      exact hget c hc
    · rw [hcur] at hc
      dsimp only at hc
      rcases hfmt : config.get "format" with _ | f0
      · rw [hfmt] at hc
        dsimp only at hc
        exact hget c hc
      · rw [hfmt] at hc
        dsimp only at hc
        rcases hty : ((config.set "format" (nexus_remap_format f0)).eraseKey "url").get "type"
          with _ | ty
        · rw [hty] at hc
          dsimp only at hc
          exact hget c hc
        · rw [hty] at hc
          dsimp only at hc
          rw [if_pos rfl] at hc
          dsimp only at hc
          exact hget c hc

theorem api_set_role_dry_calls (net : Net) (config : Item) (identArg : Option String) :
    ∀ c ∈ (api_set_role true net config identArg).2, c.1 = Method.GET := by
  intro c hc
  unfold api_set_role at hc
  rcases hid : (if truthyOptStr identArg then identArg else config.get "id") with _ | ident
  · rw [hid] at hc
    simp at hc
  · rw [hid] at hc
    dsimp only at hc
    have hget := api_get_role_calls true net ident
    rcases hcur : (api_get_role true net ident).1 with e | current
    · rw [hcur] at hc
      dsimp only at hc
      exact hget c hc
    · rw [hcur] at hc
      dsimp only at hc
      rw [if_pos rfl] at hc
      dsimp only at hc
      exact hget c hc

theorem api_set_ldap_dry_calls (net : Net) (config : Item) (nameArg : Option String) :
    ∀ c ∈ (api_set_ldap true net config nameArg).2, c.1 = Method.GET := by
  intro c hc
  unfold api_set_ldap at hc
  rcases hid : (if truthyOptStr nameArg then nameArg else config.get "name") with _ | ident
  · rw [hid] at hc
    simp at hc
  · rw [hid] at hc
    dsimp only at hc
    have hget := api_get_ldap_calls true net ident
    rcases hcur : (api_get_ldap true net ident).1 with e | current
    · rw [hcur] at hc
      dsimp only at hc
      exact hget c hc
    · rw [hcur] at hc
      dsimp only at hc
      rw [if_pos rfl] at hc
      dsimp only at hc
      exact hget c hc

/-- C4: with dry mode enabled no mutating transport call (`PUT`, `POST`
or `DELETE`) is ever issued: `api_client` short-circuits every non-GET
method to a synthetic 200 success without issuing it, still issues real
`GET`s, and the mutating operations (`api_set_repo`, `api_set_role`,
`api_set_ldap`, `api_set_realms`) issue only `GET` calls in dry mode. -/
theorem C4_dry_mode :
    (∀ (net : Net) (m : Method) (p : String), m ≠ Method.GET →
        api_client true net m p = (Except.ok 200, []))
    ∧ (∀ (net : Net) (p : String), (api_client true net Method.GET p).2 = [(Method.GET, p)])
    ∧ (∀ (net : Net) (config : Item), ∀ c ∈ (api_set_repo true net config).2, c.1 = Method.GET)
    ∧ (∀ (net : Net) (config : Item) (i : Option String),
        ∀ c ∈ (api_set_role true net config i).2, c.1 = Method.GET)
    ∧ (∀ (net : Net) (config : Item) (i : Option String),
        ∀ c ∈ (api_set_ldap true net config i).2, c.1 = Method.GET)
    ∧ (∀ (net : Net) (config : List String), (api_set_realms true net config).2 = []) :=
  ⟨fun net m p h => api_client_dry_mutating net m p h,
   fun net p => api_client_dry_get net p,
   fun net config => api_set_repo_dry_calls net config,
   fun net config i => api_set_role_dry_calls net config i,
   fun net config i => api_set_ldap_dry_calls net config i,
   fun _ _ => rfl⟩

/-- Witness for C4 at a concrete input. -/
theorem C4_dry_mode_witness :
    (Method.PUT ≠ Method.GET)
    ∧ api_client true netOk Method.PUT "security/realms/active" = (Except.ok 200, []) :=
  ⟨by decide, C4_dry_mode.1 netOk Method.PUT "security/realms/active" (by decide)⟩

theorem limit_reduce_unsupported (rfn : String → String → Bool) (config : List Item)
    (key : String) (limits : List String) (select : Option String)
    (h1 : limits ≠ []) (h2 : limit_select_norm select ∉ limitSelectList) :
    limit_reduce rfn config key limits select
      = Except.error ("Unsupported mode " ++ limit_select_norm select
          ++ ", please choose one of: " ++ String.intercalate "," limitSelectList) := by
  cases limits with
  | nil => exact absurd rfl h1
  | cons l ls =>
    unfold limit_reduce
    rw [if_neg (by simp)]
    simp only [limitSelectList, List.mem_cons, List.not_mem_nil, or_false, not_or] at h2
    obtain ⟨e1, e2, e3, e4, e5⟩ := h2
    unfold limit_reduce_loop
    unfold limit_matched
    rw [if_neg e1, if_neg e2, if_neg e3, if_neg e4, if_neg e5]

theorem api_client_get_200 (dry : Bool) (net : Net) (p : String)
    (h : net.status Method.GET p = 200) :
    api_client dry net Method.GET p = (Except.ok 200, [(Method.GET, p)]) := by
  cases dry <;> simp [api_client, h]

/-- C8 (amended): a listing operation called with a non-empty rule list
and an unsupported strategy fails with the unsupported-strategy error,
whose message lists the valid strategy names; however the error is
raised only after the operation's collection `GET` has been issued (the
code fetches first and filters client-side), not before any remote
call.  No further call follows the error. -/
theorem C8_unsupported_strategy (rfn : String → String → Bool) (dry : Bool) (net : Net)
    (limits : List String) (select : Option String)
    (h1 : limits ≠ []) (h2 : limit_select_norm select ∉ limitSelectList)
    (h3 : net.status Method.GET "repositories" = 200) :
    api_get_repos rfn dry net limits select
        = (Except.error ("Unsupported mode " ++ limit_select_norm select
            ++ ", please choose one of: " ++ String.intercalate "," limitSelectList),
           [(Method.GET, "repositories")])
      ∧ String.intercalate "," limitSelectList = "exact,contains,startswith,endswith,regex"
      ∧ [(Method.GET, "repositories")] ≠ ([] : List Call) := by
  refine ⟨?_, rfl, by simp⟩
  unfold api_get_repos
  rw [api_client_get_200 dry net "repositories" h3]
  dsimp only
  rw [if_pos rfl, if_pos h1, limit_reduce_unsupported rfn _ "name" limits select h1 h2]

/-- Witness for C8 at a concrete input. -/
theorem C8_unsupported_strategy_witness :
    ((["a"] : List String) ≠ []
      ∧ limit_select_norm (some "bogus") ∉ limitSelectList
      ∧ netOk.status Method.GET "repositories" = 200)
    ∧ api_get_repos (fun _ _ => false) false netOk ["a"] (some "bogus")
        = (Except.error ("Unsupported mode " ++ limit_select_norm (some "bogus")
            ++ ", please choose one of: " ++ String.intercalate "," limitSelectList),
           [(Method.GET, "repositories")]) :=
  ⟨⟨by decide, by decide, rfl⟩,
   (C8_unsupported_strategy (fun _ _ => false) false netOk ["a"] (some "bogus")
     (by decide) (by decide) rfl).1⟩

/-- C8 counterexample: with an unsupported strategy the operation does
fail with the message listing the valid strategies, but the trace shows
the collection `GET` was already issued, so the error is not raised
before any remote call as claimed. -/
theorem C8_counterexample :
    (api_get_repos (fun _ _ => false) false netOk ["a"] (some "bogus")).1
        = Except.error
            "Unsupported mode bogus, please choose one of: exact,contains,startswith,endswith,regex"
      ∧ (api_get_repos (fun _ _ => false) false netOk ["a"] (some "bogus")).2
        = [(Method.GET, "repositories")] :=
  ⟨rfl, rfl⟩

/-! ## Lemmas about the import orderings -/

theorem nexus_sort_repos_hosted (f : String) (h : strContains f "hosted" = true) :
    nexus_sort_repos f = 1 := by
  simp [nexus_sort_repos, h]

theorem nexus_sort_repos_proxy (f : String) (h1 : strContains f "hosted" = false)
    (h2 : strContains f "proxy" = true) : nexus_sort_repos f = 2 := by
  simp [nexus_sort_repos, h1, h2]

theorem nexus_sort_repos_other (f : String) (h1 : strContains f "hosted" = false)
    (h2 : strContains f "proxy" = false) : nexus_sort_repos f = 3 := by
  simp [nexus_sort_repos, h1, h2]

theorem cli_import_repos_order_sorted (files : List String) :
    List.Pairwise (fun a b => nexus_sort_repos a ≤ nexus_sort_repos b)
      (cli_import_repos_order files) := by
  have h := @List.sorted_mergeSort String
    (fun a b => decide (nexus_sort_repos a ≤ nexus_sort_repos b))
    (fun a b c hab hbc => by simp_all; omega)
    (fun a b => by simp [Nat.le_total]) files
  exact h.imp (fun h => by simpa using h)

/-- C5: the repo import ordering permutes the files and places every
file name containing `hosted` before every file name containing `proxy`
(and not `hosted`), and both before every other file: in the sorted
output, whenever `a` appears before `b`, `b` being hosted forces `a` to
be hosted, and `b` being proxy-not-hosted forces `a` to be hosted or
proxy. -/
theorem C5_repo_import_order (files : List String) :
    (cli_import_repos_order files).Perm files
    ∧ List.Pairwise (fun a b => nexus_sort_repos a ≤ nexus_sort_repos b)
        (cli_import_repos_order files)
    ∧ List.Pairwise (fun a b =>
        (strContains b "hosted" = true → strContains a "hosted" = true)
        ∧ (strContains b "proxy" = true → strContains b "hosted" = false →
            strContains a "hosted" = true ∨ strContains a "proxy" = true))
        (cli_import_repos_order files) := by
  have hsorted := cli_import_repos_order_sorted files
  refine ⟨List.mergeSort_perm files _, hsorted, hsorted.imp ?_⟩
  intro a b hab
  constructor
  · intro hb
    rw [nexus_sort_repos_hosted b hb] at hab
    by_cases ha : strContains a "hosted" = true
    · exact ha
    · exfalso
      simp only [Bool.not_eq_true] at ha
      by_cases hap : strContains a "proxy" = true
      · rw [nexus_sort_repos_proxy a ha hap] at hab
        omega
      · simp only [Bool.not_eq_true] at hap
        rw [nexus_sort_repos_other a ha hap] at hab
        omega
  · intro hbp hbh
    rw [nexus_sort_repos_proxy b hbh hbp] at hab
    by_cases ha : strContains a "hosted" = true
    · exact Or.inl ha
    · simp only [Bool.not_eq_true] at ha
      by_cases hap : strContains a "proxy" = true
      · exact Or.inr hap
      · exfalso
        simp only [Bool.not_eq_true] at hap
        rw [nexus_sort_repos_other a ha hap] at hab
        omega

theorem nexus_sort_roles_roleA : nexus_sort_roles roleA = 0 := rfl

theorem nexus_sort_roles_roleB : nexus_sort_roles roleB = 3 := rfl

theorem cli_import_roles_order_sorted (items : List Role) :
    List.Pairwise (fun a b => nexus_sort_roles a ≤ nexus_sort_roles b)
      (cli_import_roles_order items) := by
  have h := @List.sorted_mergeSort Role
    (fun a b => decide (nexus_sort_roles a ≤ nexus_sort_roles b))
    (fun a b c hab hbc => by simp_all; omega)
    (fun a b => by simp [Nat.le_total]) items
  exact h.imp (fun h => by simpa using h)

/-- C9: the role import ordering permutes the items and is ascending by
`len(roles) * 3 + len(privileges)`; in particular a role with
`roles=[], privileges=[]` (score 0) is never placed after a role with
`roles=["x"], privileges=[]` (score 3), so whenever both occur the
former always sorts before the latter. -/
theorem C9_role_import_order (items : List Role) :
    (cli_import_roles_order items).Perm items
    ∧ List.Pairwise (fun a b => nexus_sort_roles a ≤ nexus_sort_roles b)
        (cli_import_roles_order items)
    ∧ List.Pairwise (fun a b => ¬(a = roleB ∧ b = roleA)) (cli_import_roles_order items) := by
  have hsorted := cli_import_roles_order_sorted items
  refine ⟨List.mergeSort_perm items _, hsorted, hsorted.imp ?_⟩
  intro a b hab h
  rcases h with ⟨rfl, rfl⟩
  rw [nexus_sort_roles_roleA, nexus_sort_roles_roleB] at hab
  omega
